import Mathlib

/-!
Verification development for the gopedia repository.

The Python sources are shallowly embedded in Lean:
- Python `str` values handled character by character (helpers in
  `src/utils/helpers.py`) are modeled as `List Char`; strings that are only
  passed around opaquely (summaries, URNs, hashes) are modeled as `String`.
- Python `dict` metadata bags are modeled as association lists.
- Python `int` ordinals are modeled as `Int`, sizes and ids as `Nat`.
- Async code is modeled as pure functions; a coroutine that can raise an
  exception becomes a function into `Except String _`.  `asyncio.gather`
  (fail-fast joining) is modeled by `gatherE` below.
- `hashlib.sha256(...).hexdigest()` is modeled by a full executable SHA-256
  over byte lists, together with a UTF-8 encoder for `String`.
-/

/-! ## Helpers from `src/utils/helpers.py` -/

/-- Models Python `content.split('\n')`: splits a character list at every
newline, keeping empty segments (so the empty string yields one empty line). -/
def splitLines : List Char → List (List Char)
  | [] => [[]]
  | c :: cs =>
    match splitLines cs with
    | [] => [[]]
    | g :: gs => if c = '\n' then [] :: g :: gs else (c :: g) :: gs

/-- Models Python `sep.join(parts)` for a one-character separator. -/
def joinWith {α : Type} (sep : α) : List (List α) → List α
  | [] => []
  | [g] => g
  | g :: g' :: gs => g ++ sep :: joinWith sep (g' :: gs)

/-- One chunk dictionary produced by `split_into_chunks`
(`{'content': ..., 'type': ..., 'summary': ...}`). -/
structure Chunk where
  content : List Char
  chunk_type : String
  summary : List Char
deriving Repr

/-- Builds the chunk dictionary from the accumulated lines, mirroring the body
that appends to `chunks` in `split_into_chunks`: the text is the newline-join
of the lines, the type is HEADER iff the text starts with `#`, and the summary
truncates to 200 characters with an ellipsis. -/
def mkChunk (ls : List (List Char)) : Chunk :=
  let chunk_text := joinWith '\n' ls
  { content := chunk_text
    chunk_type := if chunk_text.head? = some '#' then "HEADER" else "PARAGRAPH"
    summary :=
      if chunk_text.length > 200 then chunk_text.take 200 ++ ['.', '.', '.']
      else chunk_text }

/-- The line-accumulating loop of `split_into_chunks`, returning the groups of
lines that become chunks.  `cur` is `current_chunk`, `size` is `current_size`;
the trailing `if` models the final `if current_chunk:` append. -/
def splitLoop (max_chunk_size : Nat) : List (List Char) → List (List Char) → Nat → List (List (List Char))
  | [], cur, _ => if cur.isEmpty then [] else [cur]
  | line :: rest, cur, size =>
    if size + line.length > max_chunk_size ∧ cur ≠ [] then
      cur :: splitLoop max_chunk_size rest [line] line.length
    else
      splitLoop max_chunk_size rest (cur ++ [line]) (size + line.length)

/-- Models `split_into_chunks(content, max_chunk_size)` from
`src/utils/helpers.py` (default `max_chunk_size` is 1000 at the call sites):
split by lines, grow chunks up to the size bound, and fall back to a single
chunk when no chunk was produced. -/
def split_into_chunks (content : List Char) (max_chunk_size : Nat) : List Chunk :=
  let lines := splitLines content
  let chunks := (splitLoop max_chunk_size lines [] 0).map mkChunk
  if chunks.isEmpty then
    [{ content := content
       chunk_type := "PARAGRAPH"
       summary :=
         if content.length > 200 then content.take 200 ++ ['.', '.', '.']
         else content }]
  else chunks

/-- Models `str.rfind(ch)` from Python: index of the last occurrence, `-1` when
absent. -/
def rfindIdx (c : Char) : List Char → Int
  | [] => -1
  | x :: xs =>
    let r := rfindIdx c xs
    if r ≥ 0 then r + 1 else if x = c then 0 else -1

/-- Models `os.path.splitext` (posix): split off the extension at the last dot,
unless every character between the last path separator and that dot is itself a
dot (so dotfiles like `.bashrc` keep no extension). -/
def splitext (p : List Char) : List Char × List Char :=
  let sepIndex := rfindIdx '/' p
  let dotIndex := rfindIdx '.' p
  if dotIndex > sepIndex then
    if (List.range p.length).any
        (fun i => (sepIndex + 1 ≤ (i : Int)) && ((i : Int) < dotIndex) && (p.getD i '.' != '.'))
    then (p.take dotIndex.toNat, p.drop dotIndex.toNat)
    else (p, [])
  else (p, [])

/-- Models the regex class `\w` (ASCII fragment): letters, digits, underscore. -/
def isWordChar (c : Char) : Bool := c.isAlphanum || c = '_'

/-- Models the regex class `\s` (ASCII fragment): space, tab, newline, carriage
return, vertical tab, form feed. -/
def isSpaceChar (c : Char) : Bool :=
  c = ' ' || c = '\t' || c = '\n' || c = '\r' || c = '\x0b' || c = '\x0c'

/-- A character collapsed by the second substitution `re.sub(r'[-\s]+', '-', _)`. -/
def isDashSpace (c : Char) : Bool := c = '-' || isSpaceChar c

/-- Models `re.sub(r'[-\s]+', '-', s)`: every maximal run of hyphens and
whitespace becomes a single hyphen. -/
def collapseRuns : List Char → List Char
  | [] => []
  | c :: cs =>
    if isDashSpace c then '-' :: collapseRuns (cs.dropWhile isDashSpace)
    else c :: collapseRuns cs
termination_by l => l.length
decreasing_by
  · exact Nat.lt_succ_of_le (List.dropWhile_sublist isDashSpace).length_le
  · exact Nat.lt_succ_of_le (Nat.le_refl cs.length)

/-- Models `slugify(name)` from `src/utils/helpers.py`: strip the extension,
lowercase, drop characters outside `\w`, `\s`, `-`, collapse hyphen/space runs
to single hyphens, and fall back to `"untitled"` when nothing is left. -/
def slugify (name : List Char) : List Char :=
  let name_without_ext := (splitext name).1
  let slug :=
    collapseRuns
      ((name_without_ext.map Char.toLower).filter
        (fun c => isWordChar c || isSpaceChar c || c = '-'))
  if slug = [] then ("untitled" : String).data else slug

/-! ## SHA-256 and UTF-8

Models `hashlib.sha256(text.encode("utf-8")).hexdigest()` as used by
`_sha256_hex` in `src/services/ingestion_service.py` and by
`SeedRepository.create_or_get_blob`.  Bytes are `Nat` values below 256 and
32-bit words are `Nat` values reduced modulo `2 ^ 32`.
-/

/-- Reduce to a 32-bit word. -/
def w32 (x : Nat) : Nat := x % 4294967296

/-- Right rotation of a 32-bit word. -/
def rotr32 (n x : Nat) : Nat := w32 ((x >>> n) ||| (x <<< (32 - n)))

/-- UTF-8 encoding of one Unicode scalar value (Python `chr(n).encode('utf-8')`
for the scalar values `Char` can hold). -/
def utf8EncodeChar (n : Nat) : List Nat :=
  if n < 128 then [n]
  else if n < 2048 then [192 ||| (n >>> 6), 128 ||| (n &&& 63)]
  else if n < 65536 then
    [224 ||| (n >>> 12), 128 ||| ((n >>> 6) &&& 63), 128 ||| (n &&& 63)]
  else
    [240 ||| (n >>> 18), 128 ||| ((n >>> 12) &&& 63),
     128 ||| ((n >>> 6) &&& 63), 128 ||| (n &&& 63)]

/-- Models Python `text.encode('utf-8')` as a byte list. -/
def utf8Encode (s : String) : List Nat := s.data.flatMap (fun c => utf8EncodeChar c.toNat)

/-- The 64 SHA-256 round constants (decimal). -/
def sha256K : List Nat :=
  [1116352408, 1899447441, 3049323471, 3921009573, 961987163, 1508970993,
   2453635748, 2870763221, 3624381080, 310598401, 607225278, 1426881987,
   1925078388, 2162078206, 2614888103, 3248222580, 3835390401, 4022224774,
   264347078, 604807628, 770255983, 1249150122, 1555081692, 1996064986,
   2554220882, 2821834349, 2952996808, 3210313671, 3336571891, 3584528711,
   113926993, 338241895, 666307205, 773529912, 1294757372, 1396182291,
   1695183700, 1986661051, 2177026350, 2456956037, 2730485921, 2820302411,
   3259730800, 3345764771, 3516065817, 3600352804, 4094571909, 275423344,
   430227734, 506948616, 659060556, 883997877, 958139571, 1322822218,
   1537002063, 1747873779, 1955562222, 2024104815, 2227730452, 2361852424,
   2428436474, 2756734187, 3204031479, 3329325298]

/-- The eight 32-bit hash words (initial values are the SHA-256 constants). -/
structure Sha256State where
  a : Nat
  b : Nat
  c : Nat
  d : Nat
  e : Nat
  f : Nat
  g : Nat
  h : Nat

/-- SHA-256 initial hash value (decimal). -/
def sha256Init : Sha256State :=
  ⟨1779033703, 3144134277, 1013904242, 2773480762,
   1359893119, 2600822924, 528734635, 1541459225⟩

/-- SHA-256 padding: append `0x80`, zero bytes up to 56 mod 64, and the bit
length as an 8-byte big-endian integer. -/
def sha256Pad (msg : List Nat) : List Nat :=
  let len := msg.length
  let bitLen := len * 8
  msg ++ 128 :: List.replicate ((119 - len % 64) % 64) 0 ++
    [(bitLen >>> 56) % 256, (bitLen >>> 48) % 256, (bitLen >>> 40) % 256, (bitLen >>> 32) % 256,
     (bitLen >>> 24) % 256, (bitLen >>> 16) % 256, (bitLen >>> 8) % 256, bitLen % 256]

/-- Split a byte list into 64-byte blocks. -/
def chunks64 : List Nat → List (List Nat)
  | [] => []
  | x :: rest => (x :: rest).take 64 :: chunks64 ((x :: rest).drop 64)
termination_by l => l.length
decreasing_by
  simp only [List.length_drop, List.length_cons]
  omega

/-- Big-endian 32-bit words from bytes. -/
def bytesToWords : List Nat → List Nat
  | b0 :: b1 :: b2 :: b3 :: rest =>
    ((b0 <<< 24) ||| (b1 <<< 16) ||| (b2 <<< 8) ||| b3) :: bytesToWords rest
  | _ => []

/-- Extend the 16-word message schedule by `n` further words. -/
def extendSchedule : Nat → List Nat → List Nat
  | 0, ws => ws
  | n + 1, ws =>
    let i := ws.length
    let x15 := ws.getD (i - 15) 0
    let x2 := ws.getD (i - 2) 0
    let s0 := rotr32 7 x15 ^^^ rotr32 18 x15 ^^^ (x15 >>> 3)
    let s1 := rotr32 17 x2 ^^^ rotr32 19 x2 ^^^ (x2 >>> 10)
    extendSchedule n (ws ++ [w32 (ws.getD (i - 16) 0 + s0 + ws.getD (i - 7) 0 + s1)])

/-- One SHA-256 compression round on the working variables. -/
def sha256Round (s : Sha256State) (kw : Nat × Nat) : Sha256State :=
  let S1 := rotr32 6 s.e ^^^ rotr32 11 s.e ^^^ rotr32 25 s.e
  let ch := (s.e &&& s.f) ^^^ ((s.e ^^^ 4294967295) &&& s.g)
  let temp1 := w32 (s.h + S1 + ch + kw.1 + kw.2)
  let S0 := rotr32 2 s.a ^^^ rotr32 13 s.a ^^^ rotr32 22 s.a
  let maj := (s.a &&& s.b) ^^^ (s.a &&& s.c) ^^^ (s.b &&& s.c)
  let temp2 := w32 (S0 + maj)
  ⟨w32 (temp1 + temp2), s.a, s.b, s.c, w32 (s.d + temp1), s.e, s.f, s.g⟩

/-- Process one 64-byte block. -/
def sha256Compress (st : Sha256State) (block : List Nat) : Sha256State :=
  let ws := extendSchedule 48 (bytesToWords block)
  let r := (sha256K.zip ws).foldl sha256Round st
  ⟨w32 (st.a + r.a), w32 (st.b + r.b), w32 (st.c + r.c), w32 (st.d + r.d),
   w32 (st.e + r.e), w32 (st.f + r.f), w32 (st.g + r.g), w32 (st.h + r.h)⟩

/-- Big-endian bytes of a 32-bit word. -/
def wordBytes (x : Nat) : List Nat :=
  [(x >>> 24) % 256, (x >>> 16) % 256, (x >>> 8) % 256, x % 256]

/-- The 32-byte SHA-256 digest of a byte list. -/
def sha256Digest (msg : List Nat) : List Nat :=
  let st := (chunks64 (sha256Pad msg)).foldl sha256Compress sha256Init
  wordBytes st.a ++ wordBytes st.b ++ wordBytes st.c ++ wordBytes st.d ++
    wordBytes st.e ++ wordBytes st.f ++ wordBytes st.g ++ wordBytes st.h

/-- Lowercase hex digit. -/
def hexDigitChar (n : Nat) : Char :=
  if n < 10 then Char.ofNat (48 + n) else Char.ofNat (87 + n)

/-- Two lowercase hex digits of a byte. -/
def byteToHex (b : Nat) : List Char := [hexDigitChar (b / 16 % 16), hexDigitChar (b % 16)]

/-- Models `hashlib.sha256(msg).hexdigest()` on a byte list. -/
def sha256Hexdigest (msg : List Nat) : String :=
  String.mk ((sha256Digest msg).flatMap byteToHex)

/-- Models `_sha256_hex(text)` from `src/services/ingestion_service.py`:
the SHA-256 hex digest of the UTF-8 encoding of `text`. -/
def sha256_hex (text : String) : String := sha256Hexdigest (utf8Encode text)

/-! ## Ingestion service from `src/services/ingestion_service.py`

The async service is modeled as pure functions.  The injected summarizers are
functions `String → Option String → Nat → String` (text, optional context,
max retries) and the embedding client is a function
`String → String → Nat → Nat → List Float` (text, model, dimensions, max
retries).  The semaphore and the rate-limit sleep in
`_annotate_chunks_concurrently` have no observable effect on the produced
values, so they do not appear in the pure model; `asyncio.gather`'s fail-fast
joining is modeled by `gatherE`.
-/

/-- Summarizer port: `summarize(text, context, max_retries)`. -/
abbrev SummarizeFn := String → Option String → Nat → String

/-- Embedding port: `embed_text(text, model, dimensions, max_retries)`. -/
abbrev EmbedFn := String → String → Nat → Nat → List Float

/-- DTO `ChunkInput`: raw chunk produced by the injected chunker. -/
structure ChunkInput where
  content : String
  chunk_type : String
  ord : Int
  meta : List (String × String)

/-- DTO `ChunkAnnotated`: chunk with summary and embedding. -/
structure ChunkAnnotated where
  content_summary : String
  embedding : List Float
  chunk_type : String
  ord : Int
  chunk_hash : String
  meta : List (String × String)

/-- DTO `ChunkingConfig` (defaults: `max_tokens = 800`,
`overlap_ratio = 0.12`, `language_hint = None`). -/
structure ChunkingConfig where
  max_tokens : Nat
  overlap_ratio : Float
  language_hint : Option String

/-- DTO `EmbeddingConfig` (defaults: model `text-embedding-3-small`,
`max_retries = 2`, `max_concurrency = 8`, `rate_limit_per_sec = None`,
`target_dimension = 1536`). -/
structure EmbeddingConfig where
  model : String
  max_retries : Nat
  max_concurrency : Nat
  rate_limit_per_sec : Option Nat
  target_dimension : Nat

/-- Entity `Revision` (`src/domain/entities.py`), restricted to the fields the
ingestion and seeding paths read or write.  `meta_diff` is the JSONB metadata
bag, modeled as an optional association list with string values. -/
structure Revision where
  id : Nat
  data_id : Nat
  title : String
  summary_hash : String
  meta_diff : Option (List (String × String))

/-- Entity `ChunkNode` (`src/domain/entities.py`), restricted to the fields the
ingestion service writes (`embedding` is nullable in the schema). -/
structure ChunkNode where
  revision_id : Nat
  chunk_hash : String
  chunk_type : String
  content_summary : String
  embedding : Option (List Float)
  ord : Int

/-- Reading the prior macro summary from the revision metadata:
`revision.meta_diff.get("macro_summary") if revision.meta_diff else None`
(an empty dict is falsy in Python, hence the emptiness test). -/
def metaLookup (meta_diff : Option (List (String × String))) : Option String :=
  match meta_diff with
  | none => none
  | some d => if d = [] then none else List.lookup "macro_summary" d

/-- The macro-summary step of `ingest_document`: reuse the stored summary when
it is truthy, otherwise call the macro summarizer once on the raw text with no
context.  Returns the summary together with the number of macro-summarizer
calls made (0 or 1), which the `if not macro_summary:` fallback determines
(`None` and the empty string are both falsy). -/
def computeMacroSummary (macroSummarizer : SummarizeFn) (raw_text : String)
    (meta_diff : Option (List (String × String))) (max_retries : Nat) : String × Nat :=
  match metaLookup meta_diff with
  | some s => if s = "" then (macroSummarizer raw_text none max_retries, 1) else (s, 0)
  | none => (macroSummarizer raw_text none max_retries, 1)

/-- The `ValueError` message raised on an embedding dimension mismatch. -/
def dimensionMismatchMsg (expected got : Nat) : String :=
  "Embedding dimension mismatch: expected " ++ toString expected ++ ", got " ++ toString got

/-- Models `IngestionService._annotate_single_chunk`: micro summary with the
macro summary as context, embedding of the macro+micro+content composite text,
content hash of the original chunk content, and a `ValueError` when the target
dimension is truthy (nonzero) and the embedding length differs from it. -/
def annotate_single_chunk (microSummarizer : SummarizeFn) (embed : EmbedFn)
    (embed_cfg : EmbeddingConfig) (macroSummary : String) (chunk : ChunkInput) :
    Except String ChunkAnnotated :=
  let micro_summary := microSummarizer chunk.content (some macroSummary) embed_cfg.max_retries
  let text_for_embedding := macroSummary ++ "\n\n" ++ micro_summary ++ "\n\n" ++ chunk.content
  let embedding := embed text_for_embedding embed_cfg.model embed_cfg.target_dimension embed_cfg.max_retries
  let chunk_hash := sha256_hex chunk.content
  if embed_cfg.target_dimension ≠ 0 ∧ embedding.length ≠ embed_cfg.target_dimension then
    .error (dimensionMismatchMsg embed_cfg.target_dimension embedding.length)
  else
    .ok
      { content_summary := micro_summary
        embedding := embedding
        chunk_type := chunk.chunk_type
        ord := chunk.ord
        chunk_hash := chunk_hash
        meta := chunk.meta }

/-- Models `asyncio.gather` over fallible tasks: all results on success,
fail-fast on any failure (the remaining results are discarded). -/
def gatherE {ε α : Type} : List (Except ε α) → Except ε (List α)
  | [] => .ok []
  | .error e :: _ => .error e
  | .ok a :: rest =>
    match gatherE rest with
    | .error e => .error e
    | .ok as => .ok (a :: as)

/-- Models `sorted(results, key=lambda c: c.ord)` (a stable sort by ordinal). -/
def sortChunksByOrd (results : List ChunkAnnotated) : List ChunkAnnotated :=
  results.mergeSort (fun a b => a.ord ≤ b.ord)

/-- Models `IngestionService._annotate_chunks_concurrently`: one annotation
task per chunk, joined fail-fast, and on success sorted by ordinal (the code
comment: keep original order stable). -/
def annotate_chunks_concurrently (microSummarizer : SummarizeFn) (embed : EmbedFn)
    (embed_cfg : EmbeddingConfig) (macroSummary : String) (chunks : List ChunkInput) :
    Except String (List ChunkAnnotated) :=
  match gatherE (chunks.map (annotate_single_chunk microSummarizer embed embed_cfg macroSummary)) with
  | .error e => .error e
  | .ok results => .ok (sortChunksByOrd results)

/-- The `ChunkNode` row built from one annotated chunk in `ingest_document`. -/
def chunkNodeOfAnnotated (revision_id : Nat) (item : ChunkAnnotated) : ChunkNode :=
  { revision_id := revision_id
    chunk_hash := item.chunk_hash
    chunk_type := item.chunk_type
    content_summary := item.content_summary
    embedding := some item.embedding
    ord := item.ord }

/-- Models `IngestionService.ingest_document`: chunk via the injected chunker,
obtain the macro summary, annotate all chunks concurrently, and on success
build and stage the `ChunkNode` rows (`session.add_all`).  An error means the
exception propagated and nothing was staged. -/
def ingest_document (chunker : String → ChunkingConfig → List ChunkInput)
    (macroSummarizer microSummarizer : SummarizeFn) (embed : EmbedFn)
    (raw_text : String) (revision : Revision)
    (chunk_cfg : ChunkingConfig) (embed_cfg : EmbeddingConfig) :
    Except String (List ChunkNode) :=
  let chunks := chunker raw_text chunk_cfg
  let macroSummary :=
    (computeMacroSummary macroSummarizer raw_text revision.meta_diff embed_cfg.max_retries).1
  match annotate_chunks_concurrently microSummarizer embed embed_cfg macroSummary chunks with
  | .error e => .error e
  | .ok annotated => .ok (annotated.map (chunkNodeOfAnnotated revision.id))

/-! ## Seed repository from `src/infrastructure/repositories/seed_repository.py` -/

/-- Entity `BlobStore`: content-addressable row keyed by SHA-256 hex hash. -/
structure BlobEntry where
  hash : String
  content_type : String
  body : List Nat

/-- Models `SeedRepository.create_or_get_blob(content, content_type)`: hash the
UTF-8 bytes, insert a row only when no row with that hash exists, and return
the hash.  The session is modeled as the list of `BlobStore` rows. -/
def create_or_get_blob (store : List BlobEntry) (content : String) (content_type : String) :
    String × List BlobEntry :=
  let content_bytes := utf8Encode content
  let sha256_hash := sha256Hexdigest content_bytes
  if store.any (fun b => b.hash == sha256_hash) then
    (sha256_hash, store)
  else
    (sha256_hash, store ++ [⟨sha256_hash, content_type, content_bytes⟩])

/-! ## Seeding from `src/services/github_seed_service.py`

`GitHubSeedService` creates `OriginData` and `Revision` rows.  Only these two
tables are relevant to the current-revision invariant, so the state carries
them plus the autoincrement counters that `flush` advances.  The per-file body
of `_process_files` also creates `TreeNode`, `BlobStore`, `ChunkNode` and
`KnowledgeEdge` rows, none of which touch `OriginData.curr_rev_id` or the
revisions table.
-/

/-- Entity `OriginData`, restricted to identity and the current-revision
pointer. -/
structure OriginRec where
  id : Nat
  urn : String
  src_sys_id : Nat
  dtype_id : Nat
  curr_rev_id : Option Nat

/-- Projection of the database state touched by the seeding operations. -/
structure SeedState where
  origins : List OriginRec
  revisions : List Revision
  next_origin_id : Nat
  next_revision_id : Nat

/-- The empty database. -/
def initialSeedState : SeedState := ⟨[], [], 1, 1⟩

/-- The seeding operations that create origins or revisions:
`_create_repository_origin_data` (repository origin without a revision) and
the per-file body of `_process_files` (file origin, then revision, then
current-revision pointer update). -/
inductive SeedOp where
  | createRepoOrigin (urn : String) (src_sys_id dtype_id : Nat)
  | processFile (urn : String) (src_sys_id dtype_id : Nat) (title blob_hash : String)

/-- One step of the seeding service.  `createRepoOrigin` models
`_create_repository_origin_data`: if an origin with the URN exists nothing is
created, otherwise an origin with a null current-revision pointer is added.
`processFile` models the revision-append part of one `_process_files`
iteration: create the file origin (pointer null), flush, create the revision
bound to the origin, flush, then set the origin's `curr_rev_id` to the new
revision's id. -/
def applySeedOp (st : SeedState) : SeedOp → SeedState
  | .createRepoOrigin urn src_sys_id dtype_id =>
    if st.origins.any (fun o => o.urn == urn) then st
    else
      { st with
        origins := st.origins ++ [⟨st.next_origin_id, urn, src_sys_id, dtype_id, none⟩]
        next_origin_id := st.next_origin_id + 1 }
  | .processFile urn src_sys_id dtype_id title blob_hash =>
    let oid := st.next_origin_id
    let rid := st.next_revision_id
    let revision : Revision := ⟨rid, oid, title, blob_hash, none⟩
    let file_data : OriginRec := ⟨oid, urn, src_sys_id, dtype_id, some rid⟩
    { origins := st.origins ++ [file_data]
      revisions := st.revisions ++ [revision]
      next_origin_id := oid + 1
      next_revision_id := rid + 1 }

/-- The invariant of claim C3: whenever `curr_rev_id` is set it references a
revision whose `data_id` is the same origin's id. -/
def RevPointerInv (st : SeedState) : Prop :=
  ∀ o ∈ st.origins, ∀ r, o.curr_rev_id = some r →
    ∃ rev ∈ st.revisions, rev.id = r ∧ rev.data_id = o.id

/-- Bookkeeping invariant: every stored revision id is below the
autoincrement counter (so the counter value is fresh). -/
def RevIdsFresh (st : SeedState) : Prop :=
  ∀ rev ∈ st.revisions, rev.id < st.next_revision_id

/-! ### Lemmas about the helpers -/

theorem splitLines_ne_nil (l : List Char) : splitLines l ≠ [] := by
  cases l with
  | nil => simp [splitLines]
  | cons c cs =>
    simp only [splitLines]
    cases splitLines cs with
    | nil => simp
    | cons g gs =>
      by_cases h : c = '\n' <;> simp [h]

theorem joinWith_splitLines (l : List Char) : joinWith '\n' (splitLines l) = l := by
  induction l with
  | nil => simp [splitLines, joinWith]
  | cons c cs ih =>
    simp only [splitLines]
    rcases hg : splitLines cs with _ | ⟨g, gs⟩
    · exact absurd hg (splitLines_ne_nil cs)
    · rw [hg] at ih
      by_cases h : c = '\n'
      · subst h
        simp only [if_pos rfl]
        cases gs with
        | nil => simpa [joinWith] using ih
        | cons g' gs' => simpa [joinWith] using ih
      · simp only [if_neg h]
        cases gs with
        | nil => simpa [joinWith] using ih
        | cons g' gs' => simpa [joinWith] using ih

theorem joinWith_append {α : Type} (sep : α) :
    ∀ (a b : List (List α)), a ≠ [] → b ≠ [] →
      joinWith sep (a ++ b) = joinWith sep a ++ sep :: joinWith sep b := by
  intro a
  induction a with
  | nil => intro b ha _; exact absurd rfl ha
  | cons x xs ih =>
    intro b _ hb
    cases xs with
    | nil =>
      cases b with
      | nil => exact absurd rfl hb
      | cons y ys => simp [joinWith]
    | cons x' xs' =>
      have := ih b (by simp) hb
      simp only [List.cons_append, joinWith, List.append_eq] at this ⊢
      rw [this]
      simp

theorem joinWith_map_joinWith {α : Type} (sep : α) :
    ∀ (gs : List (List (List α))), (∀ g ∈ gs, g ≠ []) →
      joinWith sep (gs.map (joinWith sep)) = joinWith sep gs.flatten := by
  intro gs
  induction gs with
  | nil => intro _; rfl
  | cons g gs ih =>
    intro h
    cases gs with
    | nil => simp [joinWith]
    | cons g' gs' =>
      have hg : g ≠ [] := h g (by simp)
      have hrest : ∀ x ∈ g' :: gs', x ≠ [] := fun x hx => h x (by simp [hx])
      have hg' : g' ≠ [] := hrest g' (by simp)
      have hflat : (g' :: gs').flatten ≠ [] := by
        simp only [List.flatten_cons]
        intro hcon
        exact hg' (List.append_eq_nil.mp hcon).1
      calc joinWith sep ((g :: g' :: gs').map (joinWith sep))
          = joinWith sep g ++ sep :: joinWith sep ((g' :: gs').map (joinWith sep)) := by
            simp [joinWith]
        _ = joinWith sep g ++ sep :: joinWith sep (g' :: gs').flatten := by
            rw [ih hrest]
        _ = joinWith sep (g ++ (g' :: gs').flatten) := by
            rw [joinWith_append sep g (g' :: gs').flatten hg hflat]
        _ = joinWith sep ((g :: g' :: gs').flatten) := by
            simp [List.flatten_cons]

theorem splitLoop_flatten (m : Nat) :
    ∀ (ls : List (List Char)) (cur : List (List Char)) (size : Nat),
      (splitLoop m ls cur size).flatten = cur ++ ls := by
  intro ls
  induction ls with
  | nil =>
    intro cur size
    by_cases h : cur.isEmpty
    · simp_all [splitLoop, List.isEmpty_iff]
    · simp [splitLoop, h]
  | cons line rest ih =>
    intro cur size
    simp only [splitLoop]
    by_cases h : size + line.length > m ∧ cur ≠ []
    · simp only [if_pos h, List.flatten_cons, ih]
      rfl
    · simp only [if_neg h, ih]
      simp

theorem splitLoop_groups_ne_nil (m : Nat) :
    ∀ (ls : List (List Char)) (cur : List (List Char)) (size : Nat),
      ∀ g ∈ splitLoop m ls cur size, g ≠ [] := by
  intro ls
  induction ls with
  | nil =>
    intro cur size g hg
    by_cases h : cur.isEmpty
    · simp [splitLoop, h] at hg
    · simp only [splitLoop, if_neg h, List.mem_singleton] at hg
      subst hg
      simpa [List.isEmpty_iff] using h
  | cons line rest ih =>
    intro cur size g hg
    simp only [splitLoop] at hg
    by_cases h : size + line.length > m ∧ cur ≠ []
    · rw [if_pos h] at hg
      rcases List.mem_cons.mp hg with rfl | hmem
      · exact h.2
      · exact ih [line] line.length g hmem
    · rw [if_neg h] at hg
      exact ih (cur ++ [line]) (size + line.length) g hg

/-- Claim C7: the chunking function `split_into_chunks` is pure and
deterministic (it is a total Lean function, so identical input content and max
chunk size evaluate to identical output by reflexivity); for every input it
returns at least one chunk, and for the empty string it returns exactly one
chunk. -/
theorem c7_split_into_chunks_never_empty :
    ∀ (content : List Char) (m : Nat),
      split_into_chunks content m ≠ [] ∧ (split_into_chunks [] m).length = 1 := by
  intro content m
  constructor
  · unfold split_into_chunks
    by_cases h : ((splitLoop m (splitLines content) [] 0).map mkChunk).isEmpty
    · simp [h]
    · simp only [h, if_neg]
      simpa [List.isEmpty_iff] using h
  · have hloop : splitLoop m [[]] [] 0 = [[[]]] := by
      simp [splitLoop]
    simp [split_into_chunks, splitLines, hloop]

/-- Claim C9: joining the chunk contents of `split_into_chunks content m` with
a newline reconstructs `content` exactly, for every input and size bound: the
chunks are a lossless ordered partition of the input lines with no overlap. -/
theorem c9_split_into_chunks_lossless (content : List Char) (m : Nat) :
    joinWith '\n' ((split_into_chunks content m).map Chunk.content) = content := by
  unfold split_into_chunks
  by_cases h : ((splitLoop m (splitLines content) [] 0).map mkChunk).isEmpty
  · simp [h, joinWith]
  · simp only [h, if_neg, Bool.not_eq_true]
    rw [List.map_map]
    have hcomp : (Chunk.content ∘ mkChunk) = fun g => joinWith '\n' g := by
      funext g
      rfl
    rw [hcomp, joinWith_map_joinWith '\n' _ (splitLoop_groups_ne_nil m _ [] 0),
      splitLoop_flatten m (splitLines content) [] 0]
    simpa using joinWith_splitLines content

/-- Claim C10: `slugify` returns a non-empty string for every input; when
stripping the extension, lowercasing and the substitutions leave nothing, the
fallback is `"untitled"`. -/
theorem c10_slugify_never_empty (name : List Char) : slugify name ≠ [] := by
  unfold slugify
  by_cases h :
      collapseRuns
        ((((splitext name).1).map Char.toLower).filter
          (fun c => isWordChar c || isSpaceChar c || c = '-')) = []
  · simp only [h, if_pos]
    decide
  · simp only [h, if_neg]
    exact h

/-! ### Content-addressable blob store (C4) -/

theorem flatMap_byteToHex_length (l : List Nat) : (l.flatMap byteToHex).length = 2 * l.length := by
  induction l with
  | nil => rfl
  | cons b bs ih =>
    simp only [List.flatMap_cons, List.length_append, byteToHex, List.length_cons,
      List.length_nil, ih]
    omega

theorem sha256Digest_length (msg : List Nat) : (sha256Digest msg).length = 32 := by
  simp [sha256Digest, wordBytes]

theorem sha256_hex_length (t : String) : (sha256_hex t).length = 64 := by
  have h : (sha256_hex t).length = ((sha256Digest (utf8Encode t)).flatMap byteToHex).length := rfl
  rw [h, flatMap_byteToHex_length, sha256Digest_length]

/-- Claim C4: `create_or_get_blob` is idempotent by SHA-256 digest.  It returns
the 64-character SHA-256 hex digest of the UTF-8 encoded content; calling it a
second time with identical content returns the same hash; and starting from a
store with no row for that hash, after both calls the store contains exactly
one `BlobStore` row for it (the second call creates no duplicate). -/
theorem c4_create_or_get_blob_idempotent (store : List BlobEntry) (content content_type : String)
    (h0 : store.countP (fun b => b.hash == sha256_hex content) = 0) :
    (create_or_get_blob store content content_type).1 = sha256_hex content ∧
    (create_or_get_blob store content content_type).1.length = 64 ∧
    (create_or_get_blob (create_or_get_blob store content content_type).2 content content_type).1
      = (create_or_get_blob store content content_type).1 ∧
    (create_or_get_blob (create_or_get_blob store content content_type).2 content content_type).2.countP
      (fun b => b.hash == sha256_hex content) = 1 := by
  have hany : store.any (fun b => b.hash == sha256_hex content) = false := by
    rw [List.any_eq_false]
    intro b hb
    exact List.countP_eq_zero.mp h0 b hb
  have e1 : create_or_get_blob store content content_type
      = (sha256_hex content,
         store ++ [⟨sha256_hex content, content_type, utf8Encode content⟩]) := by
    unfold create_or_get_blob
    simp only [show sha256Hexdigest (utf8Encode content) = sha256_hex content from rfl, hany,
      Bool.false_eq_true, if_false]
  have hany2 : (store ++ [(⟨sha256_hex content, content_type, utf8Encode content⟩ : BlobEntry)]).any
      (fun b => b.hash == sha256_hex content) = true := by
    refine List.any_eq_true.mpr
      ⟨(⟨sha256_hex content, content_type, utf8Encode content⟩ : BlobEntry), by simp, by simp⟩
  have e2 : create_or_get_blob
      (store ++ [(⟨sha256_hex content, content_type, utf8Encode content⟩ : BlobEntry)]) content content_type
      = (sha256_hex content,
         store ++ [(⟨sha256_hex content, content_type, utf8Encode content⟩ : BlobEntry)]) := by
    unfold create_or_get_blob
    simp only [show sha256Hexdigest (utf8Encode content) = sha256_hex content from rfl, hany2,
      if_true]
  refine ⟨by rw [e1], ?_, ?_, ?_⟩
  · rw [e1]
    exact sha256_hex_length content
  · rw [e1]
    exact congrArg Prod.fst e2
  · rw [e1]
    rw [show (create_or_get_blob
        (store ++ [(⟨sha256_hex content, content_type, utf8Encode content⟩ : BlobEntry)])
        content content_type).2
      = store ++ [(⟨sha256_hex content, content_type, utf8Encode content⟩ : BlobEntry)]
      from congrArg Prod.snd e2]
    simp [List.countP_append, h0, List.countP_cons]

/-- Witness for C4 at the empty store with content `"a"`. -/
theorem c4_create_or_get_blob_idempotent_witness :
    (create_or_get_blob [] "a" "text/markdown").1 = sha256_hex "a" ∧
    (create_or_get_blob [] "a" "text/markdown").1.length = 64 ∧
    (create_or_get_blob (create_or_get_blob [] "a" "text/markdown").2 "a" "text/markdown").1
      = (create_or_get_blob [] "a" "text/markdown").1 ∧
    (create_or_get_blob (create_or_get_blob [] "a" "text/markdown").2 "a" "text/markdown").2.countP
      (fun b => b.hash == sha256_hex "a") = 1 :=
  c4_create_or_get_blob_idempotent [] "a" "text/markdown" rfl

/-! ### Ingestion service lemmas -/

theorem annotate_single_chunk_ok (microSummarizer : SummarizeFn) (embed : EmbedFn)
    (embed_cfg : EmbeddingConfig) (m : String) (c : ChunkInput) (a : ChunkAnnotated)
    (h : annotate_single_chunk microSummarizer embed embed_cfg m c = .ok a) :
    a.content_summary = microSummarizer c.content (some m) embed_cfg.max_retries ∧
    a.embedding = embed (m ++ "\n\n" ++ microSummarizer c.content (some m) embed_cfg.max_retries
        ++ "\n\n" ++ c.content) embed_cfg.model embed_cfg.target_dimension embed_cfg.max_retries ∧
    a.chunk_hash = sha256_hex c.content ∧
    a.ord = c.ord ∧ a.chunk_type = c.chunk_type ∧ a.meta = c.meta := by
  unfold annotate_single_chunk at h
  by_cases hguard : embed_cfg.target_dimension ≠ 0 ∧
      (embed (m ++ "\n\n" ++ microSummarizer c.content (some m) embed_cfg.max_retries
        ++ "\n\n" ++ c.content) embed_cfg.model embed_cfg.target_dimension embed_cfg.max_retries).length
        ≠ embed_cfg.target_dimension
  · rw [if_pos hguard] at h
    cases h
  · rw [if_neg hguard] at h
    cases h
    exact ⟨rfl, rfl, rfl, rfl, rfl, rfl⟩

theorem gatherE_ok_map_ord (f : ChunkInput → Except String ChunkAnnotated)
    (hpres : ∀ c a, f c = .ok a → a.ord = c.ord) :
    ∀ (chunks : List ChunkInput) (rs : List ChunkAnnotated),
      gatherE (chunks.map f) = .ok rs →
      rs.map ChunkAnnotated.ord = chunks.map ChunkInput.ord := by
  intro chunks
  induction chunks with
  | nil =>
    intro rs h
    cases h
    rfl
  | cons c cs ih =>
    intro rs h
    simp only [List.map_cons] at h
    rcases hfc : f c with e | a
    · rw [hfc] at h
      cases h
    · rw [hfc] at h
      simp only [gatherE] at h
      rcases hg : gatherE (cs.map f) with e' | as
      · rw [hg] at h
        cases h
      · rw [hg] at h
        cases h
        simp only [List.map_cons, ih as hg, hpres c a hfc]

theorem gatherE_ok_mem (f : ChunkInput → Except String ChunkAnnotated) :
    ∀ (chunks : List ChunkInput) (rs : List ChunkAnnotated) (a : ChunkAnnotated),
      gatherE (chunks.map f) = .ok rs → a ∈ rs →
      ∃ c ∈ chunks, f c = .ok a := by
  intro chunks
  induction chunks with
  | nil =>
    intro rs a h ha
    cases h
    cases ha
  | cons c cs ih =>
    intro rs a h ha
    simp only [List.map_cons] at h
    rcases hfc : f c with e | b
    · rw [hfc] at h
      cases h
    · rw [hfc] at h
      simp only [gatherE] at h
      rcases hg : gatherE (cs.map f) with e' | as
      · rw [hg] at h
        cases h
      · rw [hg] at h
        cases h
        rcases List.mem_cons.mp ha with rfl | hmem
        · exact ⟨c, List.mem_cons_self c cs, hfc⟩
        · rcases ih as a hg hmem with ⟨c', hc', hfc'⟩
          exact ⟨c', List.mem_cons_of_mem c hc', hfc'⟩

theorem isOk_false_iff_error {ε α : Type} (x : Except ε α) :
    x.isOk = false ↔ ∃ e, x = .error e := by
  cases x <;> simp [Except.isOk, Except.toBool]

theorem gatherE_isOk_false_of_mem (f : ChunkInput → Except String ChunkAnnotated) :
    ∀ (chunks : List ChunkInput) (c : ChunkInput), c ∈ chunks → (f c).isOk = false →
      (gatherE (chunks.map f)).isOk = false := by
  intro chunks
  induction chunks with
  | nil =>
    intro c hc
    cases hc
  | cons c0 cs ih =>
    intro c hc hfail
    simp only [List.map_cons]
    rcases List.mem_cons.mp hc with rfl | hmem
    · rcases (isOk_false_iff_error (f c)).mp hfail with ⟨e, he⟩
      rw [he]
      rfl
    · rcases hfc0 : f c0 with e | a
      · rfl
      · simp only [gatherE]
        rcases (isOk_false_iff_error _).mp (ih c hmem hfail) with ⟨e', he'⟩
        rw [he']
        rfl

theorem sortChunksByOrd_ord_range (K : Nat) (l : List ChunkAnnotated)
    (h : (l.map ChunkAnnotated.ord).Perm ((List.range K).map Int.ofNat)) :
    (sortChunksByOrd l).map ChunkAnnotated.ord = (List.range K).map Int.ofNat := by
  have hperm : ((sortChunksByOrd l).map ChunkAnnotated.ord).Perm ((List.range K).map Int.ofNat) :=
    ((List.mergeSort_perm l _).map ChunkAnnotated.ord).trans h
  have hsorted1 : List.Sorted (· ≤ ·) ((sortChunksByOrd l).map ChunkAnnotated.ord) := by
    have hs := @List.sorted_mergeSort ChunkAnnotated
      (fun (a b : ChunkAnnotated) => a.ord ≤ b.ord)
      (fun a b c h1 h2 => by
        simp only [decide_eq_true_eq] at h1 h2 ⊢
        omega)
      (fun a b => by
        simp only [Bool.or_eq_true, decide_eq_true_eq]
        omega)
      l
    have hp : List.Pairwise (fun a b : ChunkAnnotated => a.ord ≤ b.ord) (sortChunksByOrd l) :=
      hs.imp (fun hab => by simpa using hab)
    exact List.pairwise_map.mpr hp
  have hsorted2 : List.Sorted (· ≤ ·) ((List.range K).map Int.ofNat) := by
    refine List.pairwise_map.mpr ((List.pairwise_lt_range K).imp ?_)
    intro a b hab
    exact Int.ofNat_le.mpr (Nat.le_of_lt hab)
  exact List.eq_of_perm_of_sorted hperm hsorted1 hsorted2

theorem ingest_document_ok_inversion (chunker : String → ChunkingConfig → List ChunkInput)
    (macroSummarizer microSummarizer : SummarizeFn) (embed : EmbedFn)
    (raw_text : String) (revision : Revision)
    (chunk_cfg : ChunkingConfig) (embed_cfg : EmbeddingConfig) (nodes : List ChunkNode)
    (h : ingest_document chunker macroSummarizer microSummarizer embed raw_text revision
      chunk_cfg embed_cfg = .ok nodes) :
    ∃ results,
      gatherE ((chunker raw_text chunk_cfg).map
        (annotate_single_chunk microSummarizer embed embed_cfg
          (computeMacroSummary macroSummarizer raw_text revision.meta_diff embed_cfg.max_retries).1))
        = .ok results ∧
      nodes = (sortChunksByOrd results).map (chunkNodeOfAnnotated revision.id) := by
  simp only [ingest_document, annotate_chunks_concurrently] at h
  rcases hg : gatherE ((chunker raw_text chunk_cfg).map
      (annotate_single_chunk microSummarizer embed embed_cfg
        (computeMacroSummary macroSummarizer raw_text revision.meta_diff embed_cfg.max_retries).1))
    with e | results
  · rw [hg] at h
    simp at h
  · rw [hg] at h
    simp only [Except.ok.injEq] at h
    exact ⟨results, rfl, h.symm⟩

/-- Claim C1: when the injected chunker produces chunks whose ordinals are
exactly `0..K-1`, the `ChunkNode` list returned by `ingest_document` (the list
handed to persistence) has `ord` values exactly `0..K-1` in ascending order;
moreover, sorting any permutation `gathered` of the gathered annotation
results by ordinal (what `_annotate_chunks_concurrently` does) restores the
ordinals `0..K-1` regardless of completion order. -/
theorem c1_ingest_document_ord_exact
    (chunker : String → ChunkingConfig → List ChunkInput)
    (macroSummarizer microSummarizer : SummarizeFn) (embed : EmbedFn)
    (raw_text : String) (revision : Revision)
    (chunk_cfg : ChunkingConfig) (embed_cfg : EmbeddingConfig) (K : Nat)
    (nodes : List ChunkNode) (results gathered : List ChunkAnnotated)
    (hords : (chunker raw_text chunk_cfg).map ChunkInput.ord = (List.range K).map Int.ofNat)
    (hok : ingest_document chunker macroSummarizer microSummarizer embed raw_text revision
      chunk_cfg embed_cfg = .ok nodes)
    (hres : gatherE ((chunker raw_text chunk_cfg).map
        (annotate_single_chunk microSummarizer embed embed_cfg
          (computeMacroSummary macroSummarizer raw_text revision.meta_diff embed_cfg.max_retries).1))
      = .ok results)
    (hperm : gathered.Perm results) :
    nodes.map ChunkNode.ord = (List.range K).map Int.ofNat ∧
    (sortChunksByOrd gathered).map ChunkAnnotated.ord = (List.range K).map Int.ofNat := by
  have hpres : ∀ c a, annotate_single_chunk microSummarizer embed embed_cfg
      (computeMacroSummary macroSummarizer raw_text revision.meta_diff embed_cfg.max_retries).1 c
      = .ok a → a.ord = c.ord :=
    fun c a h => (annotate_single_chunk_ok _ _ _ _ c a h).2.2.2.1
  have hrr : results.map ChunkAnnotated.ord = (List.range K).map Int.ofNat :=
    (gatherE_ok_map_ord _ hpres _ _ hres).trans hords
  have hPr : (results.map ChunkAnnotated.ord).Perm ((List.range K).map Int.ofNat) := by
    rw [hrr]
  constructor
  · rcases ingest_document_ok_inversion chunker macroSummarizer microSummarizer embed raw_text
      revision chunk_cfg embed_cfg nodes hok with ⟨results', hres', hnodes⟩
    rw [hres] at hres'
    cases hres'
    subst hnodes
    rw [List.map_map]
    have hcomp : (ChunkNode.ord ∘ chunkNodeOfAnnotated revision.id) = ChunkAnnotated.ord :=
      funext fun item => rfl
    rw [hcomp]
    exact sortChunksByOrd_ord_range K results hPr
  · exact sortChunksByOrd_ord_range K gathered ((hperm.map ChunkAnnotated.ord).trans hPr)

unseal List.merge List.mergeSort in
/-- Witness for C1: a two-chunk document with ordinals 0 and 1, constant
summarizers, a one-dimensional embedder, and the gathered results presented in
swapped completion order. -/
theorem c1_ingest_document_ord_exact_witness :
    ([(⟨1, sha256_hex "a", "t", "m", some [(0.5 : Float)], 0⟩ : ChunkNode),
      (⟨1, sha256_hex "b", "t", "m", some [(0.5 : Float)], 1⟩ : ChunkNode)].map ChunkNode.ord
      = (List.range 2).map Int.ofNat) ∧
    ((sortChunksByOrd
        [(⟨"m", [(0.5 : Float)], "t", 1, sha256_hex "b", []⟩ : ChunkAnnotated),
         (⟨"m", [(0.5 : Float)], "t", 0, sha256_hex "a", []⟩ : ChunkAnnotated)]).map ChunkAnnotated.ord
      = (List.range 2).map Int.ofNat) :=
  c1_ingest_document_ord_exact
    (fun _ _ => [⟨"a", "t", 0, []⟩, ⟨"b", "t", 1, []⟩])
    (fun _ _ _ => "m") (fun _ _ _ => "m") (fun _ _ _ _ => [(0.5 : Float)])
    "doc" ⟨1, 1, "t", "h", none⟩ ⟨800, 0.12, none⟩ ⟨"model", 2, 8, none, 1⟩ 2
    [⟨1, sha256_hex "a", "t", "m", some [(0.5 : Float)], 0⟩,
     ⟨1, sha256_hex "b", "t", "m", some [(0.5 : Float)], 1⟩]
    [⟨"m", [(0.5 : Float)], "t", 0, sha256_hex "a", []⟩,
     ⟨"m", [(0.5 : Float)], "t", 1, sha256_hex "b", []⟩]
    [⟨"m", [(0.5 : Float)], "t", 1, sha256_hex "b", []⟩,
     ⟨"m", [(0.5 : Float)], "t", 0, sha256_hex "a", []⟩]
    (by decide) rfl rfl
    (List.Perm.swap
      (⟨"m", [(0.5 : Float)], "t", 0, sha256_hex "a", []⟩ : ChunkAnnotated)
      (⟨"m", [(0.5 : Float)], "t", 1, sha256_hex "b", []⟩ : ChunkAnnotated) [])

/-- Claim C5: for each chunk that annotates successfully,
`_annotate_single_chunk` produced the micro summary by calling the summarizer
with the chunk content and the macro summary as context, produced the
embedding by calling the embedder with the macro+micro+content composite text
(separated by blank lines) and the declared target dimension, and stored as
`chunk_hash` the SHA-256 of the original chunk content alone, not of the
composite text. -/
theorem c5_annotate_single_chunk_composite (microSummarizer : SummarizeFn) (embed : EmbedFn)
    (embed_cfg : EmbeddingConfig) (macroSummary : String) (chunk : ChunkInput)
    (a : ChunkAnnotated)
    (h : annotate_single_chunk microSummarizer embed embed_cfg macroSummary chunk = .ok a) :
    a.content_summary = microSummarizer chunk.content (some macroSummary) embed_cfg.max_retries ∧
    a.embedding = embed (macroSummary ++ "\n\n" ++ a.content_summary ++ "\n\n" ++ chunk.content)
      embed_cfg.model embed_cfg.target_dimension embed_cfg.max_retries ∧
    a.chunk_hash = sha256_hex chunk.content := by
  rcases annotate_single_chunk_ok microSummarizer embed embed_cfg macroSummary chunk a h with
    ⟨hsum, hemb, hhash, -, -, -⟩
  refine ⟨hsum, ?_, hhash⟩
  rw [hsum]
  exact hemb

/-- Witness for C5 at a concrete chunk with a constant summarizer and a
two-dimensional embedder. -/
theorem c5_annotate_single_chunk_composite_witness :
    ((⟨"S", [(0.25 : Float), (0.75 : Float)], "t", 0, sha256_hex "x", []⟩ : ChunkAnnotated).content_summary
      = (fun (_ : String) (_ : Option String) (_ : Nat) => "S") "x" (some "M") 2) ∧
    ((⟨"S", [(0.25 : Float), (0.75 : Float)], "t", 0, sha256_hex "x", []⟩ : ChunkAnnotated).embedding
      = (fun (_ : String) (_ : String) (_ : Nat) (_ : Nat) => [(0.25 : Float), (0.75 : Float)])
          ("M" ++ "\n\n" ++
            (⟨"S", [(0.25 : Float), (0.75 : Float)], "t", 0, sha256_hex "x", []⟩ : ChunkAnnotated).content_summary
            ++ "\n\n" ++ "x") "model" 2 2) ∧
    ((⟨"S", [(0.25 : Float), (0.75 : Float)], "t", 0, sha256_hex "x", []⟩ : ChunkAnnotated).chunk_hash
      = sha256_hex "x") :=
  c5_annotate_single_chunk_composite
    (fun _ _ _ => "S")
    (fun _ _ _ _ => [(0.25 : Float), (0.75 : Float)])
    ⟨"model", 2, 8, none, 2⟩ "M" ⟨"x", "t", 0, []⟩
    ⟨"S", [(0.25 : Float), (0.75 : Float)], "t", 0, sha256_hex "x", []⟩ rfl

unseal List.merge List.mergeSort in
/-- Counterexample to C2 as stated: with a configured target dimension of 0
(falsy in Python), an embedder returning a vector of length 1 — a length that
differs from the configured target dimension — does not make annotation fail:
`ingest_document` succeeds and produces a staged `ChunkNode`.  The guard
`if embed_cfg.target_dimension and len(embedding) != ...` skips the check for
a falsy target dimension. -/
theorem c2_counterexample_zero_dimension :
    ((⟨"model", 2, 8, none, 0⟩ : EmbeddingConfig).target_dimension ≠ [(0.5 : Float)].length) ∧
    (ingest_document (fun _ _ => [⟨"x", "t", 0, []⟩]) (fun _ _ _ => "m") (fun _ _ _ => "m")
      (fun _ _ _ _ => [(0.5 : Float)]) "doc" ⟨1, 1, "t", "h", none⟩ ⟨800, 0.12, none⟩
      ⟨"model", 2, 8, none, 0⟩).isOk = true := by
  constructor
  · decide
  · rfl

/-- Claim C2 amended: provided the configured target dimension is nonzero
(truthy), if the embedder returns a vector whose length differs from it for
some chunk of the document, then `_annotate_single_chunk` fails with the
embedding-dimension-mismatch `ValueError` for that chunk and the whole
`ingest_document` call fails, so no `ChunkNode` records are produced or staged
(fail-fast, no partial commit). -/
theorem c2_amended_dimension_mismatch_fails
    (chunker : String → ChunkingConfig → List ChunkInput)
    (macroSummarizer microSummarizer : SummarizeFn) (embed : EmbedFn)
    (raw_text : String) (revision : Revision)
    (chunk_cfg : ChunkingConfig) (embed_cfg : EmbeddingConfig)
    (m : String) (c : ChunkInput)
    (hm : m = (computeMacroSummary macroSummarizer raw_text revision.meta_diff
      embed_cfg.max_retries).1)
    (hdim : embed_cfg.target_dimension ≠ 0)
    (hc : c ∈ chunker raw_text chunk_cfg)
    (hlen : (embed (m ++ "\n\n" ++ microSummarizer c.content (some m) embed_cfg.max_retries
        ++ "\n\n" ++ c.content) embed_cfg.model embed_cfg.target_dimension
        embed_cfg.max_retries).length ≠ embed_cfg.target_dimension) :
    annotate_single_chunk microSummarizer embed embed_cfg m c
      = .error (dimensionMismatchMsg embed_cfg.target_dimension
          (embed (m ++ "\n\n" ++ microSummarizer c.content (some m) embed_cfg.max_retries
            ++ "\n\n" ++ c.content) embed_cfg.model embed_cfg.target_dimension
            embed_cfg.max_retries).length) ∧
    (ingest_document chunker macroSummarizer microSummarizer embed raw_text revision
      chunk_cfg embed_cfg).isOk = false := by
  have herr : annotate_single_chunk microSummarizer embed embed_cfg m c
      = .error (dimensionMismatchMsg embed_cfg.target_dimension
          (embed (m ++ "\n\n" ++ microSummarizer c.content (some m) embed_cfg.max_retries
            ++ "\n\n" ++ c.content) embed_cfg.model embed_cfg.target_dimension
            embed_cfg.max_retries).length) := by
    unfold annotate_single_chunk
    rw [if_pos ⟨hdim, hlen⟩]
  refine ⟨herr, ?_⟩
  have hfail : (annotate_single_chunk microSummarizer embed embed_cfg m c).isOk = false := by
    rw [herr]
    rfl
  have hgfail := gatherE_isOk_false_of_mem
    (annotate_single_chunk microSummarizer embed embed_cfg m)
    (chunker raw_text chunk_cfg) c hc hfail
  rcases (isOk_false_iff_error _).mp hgfail with ⟨e, he⟩
  rw [hm] at he
  simp only [ingest_document, annotate_chunks_concurrently, he]
  rfl

/-- Witness for the amended C2: target dimension 2, an embedder returning a
length-1 vector, one chunk. -/
theorem c2_amended_dimension_mismatch_fails_witness :
    (annotate_single_chunk (fun _ _ _ => "m") (fun _ _ _ _ => [(0.5 : Float)])
        ⟨"model", 2, 8, none, 2⟩ "m" ⟨"x", "t", 0, []⟩
      = .error (dimensionMismatchMsg 2 [(0.5 : Float)].length)) ∧
    (ingest_document (fun _ _ => [⟨"x", "t", 0, []⟩]) (fun _ _ _ => "m") (fun _ _ _ => "m")
      (fun _ _ _ _ => [(0.5 : Float)]) "doc" ⟨1, 1, "t", "h", none⟩ ⟨800, 0.12, none⟩
      ⟨"model", 2, 8, none, 2⟩).isOk = false :=
  c2_amended_dimension_mismatch_fails
    (fun _ _ => [⟨"x", "t", 0, []⟩]) (fun _ _ _ => "m") (fun _ _ _ => "m")
    (fun _ _ _ _ => [(0.5 : Float)]) "doc" ⟨1, 1, "t", "h", none⟩ ⟨800, 0.12, none⟩
    ⟨"model", 2, 8, none, 2⟩ "m" ⟨"x", "t", 0, []⟩
    rfl (by decide) (List.Mem.head []) (by decide)

/-- Counterexample to C6 as stated: when the revision metadata holds the key
`"macro_summary"` with an empty-string value (falsy in Python), the prior
macro summary exists under the key, yet the macro summarizer is still called
once, because `if not macro_summary:` treats the empty string as missing. -/
theorem c6_counterexample_empty_prior_summary :
    metaLookup (some [("macro_summary", "")]) = some "" ∧
    (computeMacroSummary (fun _ _ _ => "MS") "doc" (some [("macro_summary", "")]) 2).2 = 1 := by
  constructor
  · rfl
  · rfl

/-- Claim C6 amended: `ingest_document` obtains the macro summary exactly once
per document.  If a prior non-empty macro summary exists under the key
`"macro_summary"` in the revision's metadata bag, the macro summarizer is not
called at all and the stored value is used; if the key is absent (or its value
is the empty string, which Python treats as missing), the macro summarizer is
called exactly once on the raw text; and in both cases every chunk task
receives that same macro summary as read-only context (each produced chunk
node's micro summary was computed with it). -/
theorem c6_amended_macro_summary_once
    (chunker : String → ChunkingConfig → List ChunkInput)
    (macroSummarizer microSummarizer : SummarizeFn) (embed : EmbedFn)
    (raw_text : String) (revision : Revision)
    (chunk_cfg : ChunkingConfig) (embed_cfg : EmbeddingConfig)
    (m : String) (calls : Nat) (nodes : List ChunkNode) (node : ChunkNode)
    (hm : m = (computeMacroSummary macroSummarizer raw_text revision.meta_diff
      embed_cfg.max_retries).1)
    (hcalls : calls = (computeMacroSummary macroSummarizer raw_text revision.meta_diff
      embed_cfg.max_retries).2)
    (hok : ingest_document chunker macroSummarizer microSummarizer embed raw_text revision
      chunk_cfg embed_cfg = .ok nodes)
    (hn : node ∈ nodes) :
    ((metaLookup revision.meta_diff).isSome ∧ (metaLookup revision.meta_diff).getD "" ≠ "" →
      calls = 0 ∧ some m = metaLookup revision.meta_diff) ∧
    (metaLookup revision.meta_diff = none ∨ metaLookup revision.meta_diff = some "" →
      calls = 1 ∧ m = macroSummarizer raw_text none embed_cfg.max_retries) ∧
    (∃ c, c ∈ chunker raw_text chunk_cfg ∧
      node.content_summary = microSummarizer c.content (some m) embed_cfg.max_retries) := by
  refine ⟨?_, ?_, ?_⟩
  · rintro ⟨hsome, hne⟩
    rcases hmd : metaLookup revision.meta_diff with - | s
    · rw [hmd] at hsome
      cases hsome
    · rw [hmd] at hne
      simp only [Option.getD_some] at hne
      subst hm
      subst hcalls
      unfold computeMacroSummary
      rw [hmd]
      simp [hne]
  · intro hcase
    subst hm
    subst hcalls
    unfold computeMacroSummary
    rcases hcase with hnone | hempty
    · rw [hnone]
      exact ⟨rfl, rfl⟩
    · rw [hempty]
      simp
  · rcases ingest_document_ok_inversion chunker macroSummarizer microSummarizer embed raw_text
      revision chunk_cfg embed_cfg nodes hok with ⟨results, hres, hnodes⟩
    subst hnodes
    rcases List.mem_map.mp hn with ⟨item, hitem, hnode⟩
    have hitem' : item ∈ results :=
      ((List.mergeSort_perm results _).mem_iff).mp hitem
    rcases gatherE_ok_mem _ _ _ item hres hitem' with ⟨c, hc, hfc⟩
    refine ⟨c, hc, ?_⟩
    rw [← hnode]
    have hfields := annotate_single_chunk_ok _ _ _ _ _ _ hfc
    rw [← hm] at hfields
    exact hfields.1

unseal List.merge List.mergeSort in
/-- Witness for the amended C6: one chunk, no prior macro summary in the
metadata bag, so the macro summarizer runs exactly once and the produced chunk
node's micro summary used that macro summary as context. -/
theorem c6_amended_macro_summary_once_witness :
    ((metaLookup (⟨1, 1, "t", "h", none⟩ : Revision).meta_diff).isSome ∧
        (metaLookup (⟨1, 1, "t", "h", none⟩ : Revision).meta_diff).getD "" ≠ "" →
      (1 : Nat) = 0 ∧ some "M" = metaLookup (⟨1, 1, "t", "h", none⟩ : Revision).meta_diff) ∧
    (metaLookup (⟨1, 1, "t", "h", none⟩ : Revision).meta_diff = none ∨
        metaLookup (⟨1, 1, "t", "h", none⟩ : Revision).meta_diff = some "" →
      (1 : Nat) = 1 ∧ "M" = (fun (_ : String) (_ : Option String) (_ : Nat) => "M") "doc" none 2) ∧
    (∃ c, c ∈ (fun (_ : String) (_ : ChunkingConfig) => [(⟨"x", "t", 0, []⟩ : ChunkInput)]) "doc"
        (⟨800, 0.12, none⟩ : ChunkingConfig) ∧
      (⟨1, sha256_hex "x", "t", "S", some [(0.5 : Float)], 0⟩ : ChunkNode).content_summary
        = (fun (_ : String) (_ : Option String) (_ : Nat) => "S") c.content (some "M") 2) :=
  c6_amended_macro_summary_once
    (fun _ _ => [⟨"x", "t", 0, []⟩]) (fun _ _ _ => "M") (fun _ _ _ => "S")
    (fun _ _ _ _ => [(0.5 : Float)]) "doc" ⟨1, 1, "t", "h", none⟩ ⟨800, 0.12, none⟩
    ⟨"model", 2, 8, none, 1⟩ "M" 1
    [⟨1, sha256_hex "x", "t", "S", some [(0.5 : Float)], 0⟩]
    ⟨1, sha256_hex "x", "t", "S", some [(0.5 : Float)], 0⟩
    rfl rfl rfl (List.Mem.head [])

/-! ### Seeding lemmas (C3) -/

theorem applySeedOp_preserves (st : SeedState) (op : SeedOp)
    (hinv : RevPointerInv st) (hfresh : RevIdsFresh st) :
    RevPointerInv (applySeedOp st op) ∧ RevIdsFresh (applySeedOp st op) := by
  cases op with
  | createRepoOrigin urn src_sys_id dtype_id =>
    simp only [applySeedOp]
    by_cases h : st.origins.any (fun o => o.urn == urn) = true
    · rw [if_pos h]
      exact ⟨hinv, hfresh⟩
    · rw [if_neg h]
      constructor
      · intro o ho r hr
        rcases List.mem_append.mp ho with hmem | hnew
        · exact hinv o hmem r hr
        · have he : o = ⟨st.next_origin_id, urn, src_sys_id, dtype_id, none⟩ := by
            simpa using hnew
          subst he
          cases hr
      · intro rev hrev
        exact hfresh rev hrev
  | processFile urn src_sys_id dtype_id title blob_hash =>
    simp only [applySeedOp]
    constructor
    · intro o ho r hr
      rcases List.mem_append.mp ho with hmem | hnew
      · rcases hinv o hmem r hr with ⟨rev, hrev, hid, hdata⟩
        exact ⟨rev, List.mem_append.mpr (Or.inl hrev), hid, hdata⟩
      · have he : o = ⟨st.next_origin_id, urn, src_sys_id, dtype_id, some st.next_revision_id⟩ := by
          simpa using hnew
        subst he
        have hr' : r = st.next_revision_id := by
          simpa using hr.symm
        subst hr'
        exact ⟨⟨st.next_revision_id, st.next_origin_id, title, blob_hash, none⟩,
          List.mem_append.mpr (Or.inr (List.mem_singleton.mpr rfl)), rfl, rfl⟩
    · intro rev hrev
      rcases List.mem_append.mp hrev with hmem | hnew
      · exact Nat.lt_succ_of_lt (hfresh rev hmem)
      · have he : rev = ⟨st.next_revision_id, st.next_origin_id, title, blob_hash, none⟩ := by
          simpa using hnew
        subst he
        exact Nat.lt_succ_self _

theorem seed_foldl_invariant (ops : List SeedOp) :
    ∀ st : SeedState, RevPointerInv st → RevIdsFresh st →
      RevPointerInv (ops.foldl applySeedOp st) ∧ RevIdsFresh (ops.foldl applySeedOp st) := by
  induction ops with
  | nil =>
    intro st h1 h2
    exact ⟨h1, h2⟩
  | cons op rest ih =>
    intro st h1 h2
    rcases applySeedOp_preserves st op h1 h2 with ⟨h1', h2'⟩
    exact ih _ h1' h2'

/-- Claim C3: in every state reachable by the seeding operations, whenever an
origin's `curr_rev_id` is set it references a revision whose `data_id` equals
that origin's id (and the invariant is preserved by a further file-processing
step); and immediately after the revision-append part of file processing, the
new origin's `curr_rev_id` points at the newly created revision — a revision
whose `data_id` is the origin's own id — which is not null and whose id
differs from every previously existing revision (never an older one).  The
ingestion service never writes `curr_rev_id`, so seeding operations are the
only writers. -/
theorem c3_curr_rev_points_to_new_revision (ops : List SeedOp) (st : SeedState)
    (urn : String) (src_sys_id dtype_id : Nat) (title blob_hash : String)
    (hst : st = ops.foldl applySeedOp initialSeedState) :
    RevPointerInv st ∧
    RevPointerInv (applySeedOp st (.processFile urn src_sys_id dtype_id title blob_hash)) ∧
    (applySeedOp st (.processFile urn src_sys_id dtype_id title blob_hash)).origins.getLast?
      = some ⟨st.next_origin_id, urn, src_sys_id, dtype_id, some st.next_revision_id⟩ ∧
    (applySeedOp st (.processFile urn src_sys_id dtype_id title blob_hash)).revisions.getLast?
      = some ⟨st.next_revision_id, st.next_origin_id, title, blob_hash, none⟩ ∧
    st.revisions.all (fun rev => rev.id != st.next_revision_id) = true := by
  have hinit1 : RevPointerInv initialSeedState := by
    intro o ho r hr
    exact absurd ho (List.not_mem_nil o)
  have hinit2 : RevIdsFresh initialSeedState := by
    intro rev hrev
    exact absurd hrev (List.not_mem_nil rev)
  have hreach := seed_foldl_invariant ops initialSeedState hinit1 hinit2
  rw [← hst] at hreach
  rcases hreach with ⟨hinv, hfresh⟩
  refine ⟨hinv, (applySeedOp_preserves st _ hinv hfresh).1, ?_, ?_, ?_⟩
  · simp [applySeedOp, List.getLast?_concat]
  · simp [applySeedOp, List.getLast?_concat]
  · simp only [List.all_eq_true, bne_iff_ne, ne_eq]
    intro rev hrev
    exact Nat.ne_of_lt (hfresh rev hrev)

/-- Witness for C3: a state reached by creating a repository origin and then
processing one file, followed by processing a second file. -/
theorem c3_curr_rev_points_to_new_revision_witness :
    RevPointerInv ([SeedOp.createRepoOrigin "urn:rhizome:repository:r" 1 2,
        SeedOp.processFile "urn:rhizome:file:f" 1 3 "Initial version of a.md" "h1"].foldl
      applySeedOp initialSeedState) ∧
    RevPointerInv (applySeedOp
      ([SeedOp.createRepoOrigin "urn:rhizome:repository:r" 1 2,
        SeedOp.processFile "urn:rhizome:file:f" 1 3 "Initial version of a.md" "h1"].foldl
        applySeedOp initialSeedState)
      (.processFile "urn:rhizome:file:g" 1 3 "Initial version of b.md" "h2")) ∧
    (applySeedOp
      ([SeedOp.createRepoOrigin "urn:rhizome:repository:r" 1 2,
        SeedOp.processFile "urn:rhizome:file:f" 1 3 "Initial version of a.md" "h1"].foldl
        applySeedOp initialSeedState)
      (.processFile "urn:rhizome:file:g" 1 3 "Initial version of b.md" "h2")).origins.getLast?
      = some ⟨([SeedOp.createRepoOrigin "urn:rhizome:repository:r" 1 2,
          SeedOp.processFile "urn:rhizome:file:f" 1 3 "Initial version of a.md" "h1"].foldl
          applySeedOp initialSeedState).next_origin_id,
        "urn:rhizome:file:g", 1, 3,
        some ([SeedOp.createRepoOrigin "urn:rhizome:repository:r" 1 2,
          SeedOp.processFile "urn:rhizome:file:f" 1 3 "Initial version of a.md" "h1"].foldl
          applySeedOp initialSeedState).next_revision_id⟩ ∧
    (applySeedOp
      ([SeedOp.createRepoOrigin "urn:rhizome:repository:r" 1 2,
        SeedOp.processFile "urn:rhizome:file:f" 1 3 "Initial version of a.md" "h1"].foldl
        applySeedOp initialSeedState)
      (.processFile "urn:rhizome:file:g" 1 3 "Initial version of b.md" "h2")).revisions.getLast?
      = some ⟨([SeedOp.createRepoOrigin "urn:rhizome:repository:r" 1 2,
          SeedOp.processFile "urn:rhizome:file:f" 1 3 "Initial version of a.md" "h1"].foldl
          applySeedOp initialSeedState).next_revision_id,
        ([SeedOp.createRepoOrigin "urn:rhizome:repository:r" 1 2,
          SeedOp.processFile "urn:rhizome:file:f" 1 3 "Initial version of a.md" "h1"].foldl
          applySeedOp initialSeedState).next_origin_id,
        "Initial version of b.md", "h2", none⟩ ∧
    ([SeedOp.createRepoOrigin "urn:rhizome:repository:r" 1 2,
        SeedOp.processFile "urn:rhizome:file:f" 1 3 "Initial version of a.md" "h1"].foldl
      applySeedOp initialSeedState).revisions.all
      (fun rev => rev.id != ([SeedOp.createRepoOrigin "urn:rhizome:repository:r" 1 2,
        SeedOp.processFile "urn:rhizome:file:f" 1 3 "Initial version of a.md" "h1"].foldl
        applySeedOp initialSeedState).next_revision_id) = true :=
  c3_curr_rev_points_to_new_revision
    [SeedOp.createRepoOrigin "urn:rhizome:repository:r" 1 2,
     SeedOp.processFile "urn:rhizome:file:f" 1 3 "Initial version of a.md" "h1"]
    ([SeedOp.createRepoOrigin "urn:rhizome:repository:r" 1 2,
      SeedOp.processFile "urn:rhizome:file:f" 1 3 "Initial version of a.md" "h1"].foldl
      applySeedOp initialSeedState)
    "urn:rhizome:file:g" 1 3 "Initial version of b.md" "h2" rfl
